import Mathlib

/-!
# Verification development for `trainCNN.py`

A shallow embedding of the pose-estimation training script `trainCNN.py`
(directory `data/2019-02-02-Human-Pose-Estimation-Using-Deep-Learning/`).
The script builds a six-layer LeNet-style network on top of Theano and runs a
manual SGD loop with early stopping, periodic validation, checkpointing and
test scoring.

Embedding conventions:
* Python floats are modelled as `ℚ`; Theano tensors whose numeric values are
  produced by the framework (pretrained weights, biases) are `Tensor := List ℚ`.
* `numpy.random.RandomState` is modelled as a seed plus a draw counter; a
  uniform draw is recorded as a `DrawTag` naming the generator state and the
  requested interval, since the Mersenne-Twister stream itself belongs to
  numpy, not to this script.  A `DrawTag ⟨s, i, q, sh⟩` stands for the `i`-th
  draw request against the generator seeded with `s`: an array of shape `sh`
  drawn uniformly from `[-√q, +√q]`.
* Python 2 `/` on ints (and numpy integer arrays) is floor division, modelled
  by `ℕ` division.
* The training loop's interaction with Theano (`train_model`, `validate_model`,
  `test_model`) is abstracted by loss oracles indexed by the iteration number:
  in a fixed run the parameters at a given iteration, and hence every computed
  loss, are a function of that iteration index.
-/

/-- Numeric arrays whose concrete values come from the framework
(pretrained weights / biases loaded from a checkpoint). -/
abbrev Tensor := List ℚ

/-- Model of `numpy.random.RandomState`: the seed it was constructed with and
how many draw requests have been made so far. -/
structure RandomState where
  seed : ℕ
  draws : ℕ
  deriving Repr, DecidableEq

/-- A record of one uniform draw request: the `index`-th request against the
generator seeded with `seed`, for an array of shape `shape` drawn uniformly
from the symmetric interval `[-√boundSq, +√boundSq]`. -/
structure DrawTag where
  seed : ℕ
  index : ℕ
  boundSq : ℚ
  shape : List ℕ
  deriving Repr, DecidableEq

/-- How a weight tensor was produced: a fresh bounded-uniform draw
(`rng.uniform(low=-W_bound, high=W_bound, size=...)`), or a supplied
pretrained tensor used verbatim. -/
inductive WInit where
  | uniform (tag : DrawTag)
  | given (w : Tensor)
  deriving Repr, DecidableEq

/-- Perform one uniform draw request against the generator: returns the draw
record and the advanced generator state. -/
def uniformDraw (rng : RandomState) (boundSq : ℚ) (shape : List ℕ) :
    WInit × RandomState :=
  (WInit.uniform ⟨rng.seed, rng.draws, boundSq, shape⟩,
   ⟨rng.seed, rng.draws + 1⟩)

/-- Embedding of `LeNetConvPoolLayer` (trainCNN.py lines 44-116): the shape
data passed to `__init__` plus the resulting `W` and `b` parameters.  The
symbolic `input`/`output` wiring is represented by the position of the layer
in the list returned by `buildLayers`. -/
structure LeNetConvPoolLayer where
  numFilters : ℕ   -- filter_shape[0]
  inMaps : ℕ       -- filter_shape[1]
  filterH : ℕ      -- filter_shape[2]
  filterW : ℕ      -- filter_shape[3]
  imgBatch : ℕ     -- image_shape[0]
  imgMaps : ℕ      -- image_shape[1]
  imgH : ℕ         -- image_shape[2]
  imgW : ℕ         -- image_shape[3]
  poolH : ℕ        -- poolsize[0]
  poolW : ℕ        -- poolsize[1]
  W : WInit
  b : Tensor
  deriving Repr, DecidableEq

/-- Embedding of `LeNetConvPoolLayer.__init__`: computes `fan_in`,
`fan_out` and `W_bound` exactly as lines 74-81 do (Python 2 integer division
for `fan_out`), draws `W` uniformly from `[-W_bound, W_bound]` when no
pretrained `Wi` is supplied and uses `Wi` verbatim otherwise, and sets `b` to
the zero vector of length `filter_shape[0]` when no pretrained `bi` is
supplied and to `bi` verbatim otherwise.  Returns the layer and the advanced
generator. -/
def leNetConvPoolInit (rng : RandomState)
    (filter_shape : ℕ × ℕ × ℕ × ℕ) (image_shape : ℕ × ℕ × ℕ × ℕ)
    (poolsize : ℕ × ℕ) (Wi : Option Tensor) (bi : Option Tensor) :
    LeNetConvPoolLayer × RandomState :=
  let fan_in : ℕ := filter_shape.2.1 * filter_shape.2.2.1 * filter_shape.2.2.2
  let fan_out : ℕ :=
    filter_shape.1 * (filter_shape.2.2.1 * filter_shape.2.2.2) /
      (poolsize.1 * poolsize.2)
  let wBoundSq : ℚ := 6 / (fan_in + fan_out)
  let Wrng : WInit × RandomState :=
    match Wi with
    | none => uniformDraw rng wBoundSq
        [filter_shape.1, filter_shape.2.1, filter_shape.2.2.1, filter_shape.2.2.2]
    | some wv => (WInit.given wv, rng)
  let bVal : Tensor :=
    match bi with
    | none => List.replicate filter_shape.1 0
    | some bv => bv
  (⟨filter_shape.1, filter_shape.2.1, filter_shape.2.2.1, filter_shape.2.2.2,
    image_shape.1, image_shape.2.1, image_shape.2.2.1, image_shape.2.2.2,
    poolsize.1, poolsize.2, Wrng.1, bVal⟩, Wrng.2)

/-- Modelled from the spec: `HiddenLayer` is defined in the repository's
`mlp.py`, which is not under `src/`; the spec describes the fully-connected
layers as descriptors of input/output sizes with associated weight/bias
tensors, with Xavier-style bounded-uniform initialization as a fallback when
no pretrained values are supplied. -/
structure HiddenLayer where
  nIn : ℕ
  nOut : ℕ
  W : WInit
  bPretrained : Option Tensor
  deriving Repr, DecidableEq

/-- Modelled from the spec: construction of a fully-connected layer
(`HiddenLayer(rng, input, n_in, n_out, Wi, bi)` from `mlp.py`, absent from
`src/`).  A supplied pretrained `Wi`/`bi` is used verbatim; otherwise the
weights fall back to a Xavier-style bounded-uniform draw from the shared
generator. -/
def hiddenLayerInit (rng : RandomState) (n_in n_out : ℕ)
    (Wi : Option Tensor) (bi : Option Tensor) : HiddenLayer × RandomState :=
  let Wrng : WInit × RandomState :=
    match Wi with
    | none => uniformDraw rng (6 / ((n_in : ℚ) + n_out)) [n_in, n_out]
    | some wv => (WInit.given wv, rng)
  (⟨n_in, n_out, Wrng.1, bi⟩, Wrng.2)

/-- A layer of the network as returned by `buildLayers`. -/
inductive Layer where
  | convPool (l : LeNetConvPoolLayer)
  | hidden (l : HiddenLayer)
  deriving Repr, DecidableEq

/-- Is the layer a convolution+max-pooling layer? -/
def Layer.isConvPool : Layer → Bool
  | .convPool _ => true
  | .hidden _ => false

/-- Image-height of a conv-pool layer's `image_shape` (its input feature-map
side). -/
def Layer.imgSide : Layer → Option ℕ
  | .convPool l => some l.imgH
  | .hidden _ => none

/-- Filter height of a conv-pool layer. -/
def Layer.kernelSide : Layer → Option ℕ
  | .convPool l => some l.filterH
  | .hidden _ => none

/-- Pooling factor (rows) of a conv-pool layer. -/
def Layer.poolSide : Layer → Option ℕ
  | .convPool l => some l.poolH
  | .hidden _ => none

/-- Input size of a fully-connected layer. -/
def Layer.nInOf : Layer → Option ℕ
  | .convPool _ => none
  | .hidden l => some l.nIn

/-- Output size of a fully-connected layer. -/
def Layer.nOutOf : Layer → Option ℕ
  | .convPool _ => none
  | .hidden l => some l.nOut

/-- The weight-initialization record of a layer. -/
def Layer.winit : Layer → WInit
  | .convPool l => l.W
  | .hidden l => l.W

/-- Seed recorded in a layer's fresh uniform weight draw, if any. -/
def Layer.wSeed (l : Layer) : Option ℕ :=
  match l.winit with
  | .uniform t => some t.seed
  | .given _ => none

/-- Draw index recorded in a layer's fresh uniform weight draw, if any. -/
def Layer.wDrawIndex (l : Layer) : Option ℕ :=
  match l.winit with
  | .uniform t => some t.index
  | .given _ => none

/-- A checkpoint object `TT` as produced by unpickling `result_<name>.dat`:
the six layers' parameters (`TT.Layer<i>_param.W/b`, lines 139-150). -/
structure SavedModel where
  W0 : Tensor
  b0 : Tensor
  W1 : Tensor
  b1 : Tensor
  W2 : Tensor
  b2 : Tensor
  W3 : Tensor
  b3 : Tensor
  W4 : Tensor
  b4 : Tensor
  W5 : Tensor
  b5 : Tensor
  deriving Repr, DecidableEq

/-- Embedding of `buildLayers` (trainCNN.py lines 119-187): extracts the
twelve pretrained tensors from `TT` when present (lines 125-150), then builds
three `LeNetConvPoolLayer`s with the hardcoded image sides 128, 62, 29 and
kernels 5, 5, 6 (lines 152-168), followed by three fully-connected
`HiddenLayer`s of sizes `nkerns[2]*12*12 → 1024 → 2048 → 51`
(lines 175-185), threading the single random generator through all six
constructions, and returns the six layers in order (line 187). -/
def buildLayers (batch_size dim : ℕ) (nkerns : ℕ × ℕ × ℕ)
    (rng : RandomState) (TT : Option SavedModel) : List Layer :=
  let W0 := TT.map (·.W0)
  let b0 := TT.map (·.b0)
  let W1 := TT.map (·.W1)
  let b1 := TT.map (·.b1)
  let W2 := TT.map (·.W2)
  let b2 := TT.map (·.b2)
  let W3 := TT.map (·.W3)
  let b3 := TT.map (·.b3)
  let W4 := TT.map (·.W4)
  let b4 := TT.map (·.b4)
  let W5 := TT.map (·.W5)
  let b5 := TT.map (·.b5)
  let r0 := leNetConvPoolInit rng (nkerns.1, dim, 5, 5)
      (batch_size, dim, 128, 128) (2, 2) W0 b0
  let r1 := leNetConvPoolInit r0.2 (nkerns.2.1, nkerns.1, 5, 5)
      (batch_size, nkerns.1, 62, 62) (2, 2) W1 b1
  let r2 := leNetConvPoolInit r1.2 (nkerns.2.2, nkerns.2.1, 6, 6)
      (batch_size, nkerns.2.1, 29, 29) (2, 2) W2 b2
  let r3 := hiddenLayerInit r2.2 (nkerns.2.2 * 12 * 12) 1024 W3 b3
  let r4 := hiddenLayerInit r3.2 1024 2048 W4 b4
  let r5 := hiddenLayerInit r4.2 2048 51 W5 b5
  [Layer.convPool r0.1, Layer.convPool r1.1, Layer.convPool r2.1,
   Layer.hidden r3.1, Layer.hidden r4.1, Layer.hidden r5.1]

/-- The arguments of `evaluate_lenet5` (line 189). -/
structure EvalArgs where
  learning_rate : ℚ
  n_epochs : ℕ
  pathDataset : String
  nameDataset : String
  nkerns : ℕ × ℕ × ℕ
  batch_size : ℕ
  TT : Option SavedModel

/-- The generator built at line 209: `numpy.random.RandomState(23455)`. -/
def evalRng : RandomState := ⟨23455, 0⟩

/-- The model-construction phase of `evaluate_lenet5`: the reshape of the
input matrix to a 4D tensor (line 279, with `dim = 1` from line 223) and the
six layers built at line 281. -/
structure BuiltModel where
  inputShape : ℕ × ℕ × ℕ × ℕ
  layers : List Layer
  deriving Repr, DecidableEq

/-- Embedding of the model-construction phase of `evaluate_lenet5`
(lines 209-281): seeds the only random generator with the constant 23455,
sets `dim = 1`, reshapes the input matrix to
`(batch_size, dim, 128, 128)` and calls `buildLayers`. -/
def buildModel (a : EvalArgs) : BuiltModel :=
  let rng := evalRng
  let dim := 1
  { inputShape := (a.batch_size, dim, 128, 128)
    layers := buildLayers a.batch_size dim a.nkerns rng a.TT }

example :
    ((buildModel ⟨1/100, 1, "./", "activity13", (10, 50, 500), 1, none⟩).layers.map
      Layer.isConvPool) = [true, true, true, false, false, false] := by decide

/-! ## The training functions (lines 283-315) -/

/-- A reference to one shared parameter: `(layer index, 0)` is that layer's
`W` and `(layer index, 1)` its `b` (each layer stores
`self.params = [self.W, self.b]`, line 116). -/
abbrev ParamRef := ℕ × ℕ

/-- `self.params` of the layer with the given index. -/
def layerParams (i : ℕ) : List ParamRef := [(i, 0), (i, 1)]

/-- Line 298: `params = layer5.params + layer4.params + layer3.params +
layer2.params + layer1.params + layer0.params`. -/
def trainableParams : List ParamRef :=
  layerParams 5 ++ layerParams 4 ++ layerParams 3 ++
    layerParams 2 ++ layerParams 1 ++ layerParams 0

/-- Lines 308-310: the update list pairs each parameter with
`param_i - learning_rate * grad_i`. -/
def sgdUpdates (learning_rate : ℚ) (val grad : ParamRef → ℚ) :
    List (ParamRef × ℚ) :=
  trainableParams.map fun p => (p, val p - learning_rate * grad p)

/-- The slice `data[index*batch_size : (index+1)*batch_size]` used in the
`givens` of `train_model`, `validate_model` and `test_model`
(lines 287-295, 312-315). -/
def minibatchSlice (batch_size idx : ℕ) (data : List α) : List α :=
  (data.drop (idx * batch_size)).take batch_size

/-- Mean squared point error of a prediction/target pair. -/
def pointErrorMse (pred target : List ℚ) : ℚ :=
  (((pred.zip target).map fun pt => (pt.1 - pt.2) ^ 2).sum) /
    ((pred.zip target).length : ℚ)

/-- Modelled from the spec: `point_error_rmse` is a method of the output
layer defined in the repository's `mlp.py`, which is not under `src/`; the
spec names the training loss "root-mean-square point error", the square root
of the mean squared point error. -/
noncomputable def point_error_rmse (pred target : List ℚ) : ℝ :=
  Real.sqrt (pointErrorMse pred target)

/-- Line 284: the cost minimized during training is the RMSE point error of
the output layer (`layer5`) against the target minibatch. -/
noncomputable def trainingCost (outputLayerPred : List ℚ)
    (batch_size idx : ℕ) (train_set_y : List ℚ) : ℝ :=
  point_error_rmse outputLayerPred (minibatchSlice batch_size idx train_set_y)

/-! ## The training loop (lines 329-417) -/

/-- A record of one checkpoint write (lines 390-397): the iteration at which
it happened, the file that was opened with mode `'wb'` (overwriting its
current contents), and which layers were pickled into it, in order. -/
structure SaveEvent where
  iter : ℕ
  file : String
  layersDumped : List ℕ
  deriving Repr, DecidableEq

/-- Line 390: the checkpoint file name `'result_' + nameDataset + '.dat'`. -/
def checkpointFileName (nameDataset : String) : String :=
  "result_" ++ nameDataset ++ ".dat"

/-- The inputs of the training loop.  The losses computed by the compiled
Theano functions are abstracted as oracles indexed by the training iteration
at which they are evaluated (in a fixed run, the parameters — and hence each
per-minibatch loss — are a function of the iteration index). -/
structure LoopCfg where
  nameDataset : String
  nEpochs : ℕ        -- n_epochs
  nTrain : ℕ         -- n_train_batches
  nValid : ℕ         -- n_valid_batches
  nTest : ℕ          -- n_test_batches
  valLoss : ℕ → ℕ → ℚ   -- valLoss iter i = validate_model(i) at iteration iter
  testLoss : ℕ → ℕ → ℚ  -- testLoss iter i = test_model(i) at iteration iter

/-- Mean of a list of rationals (`numpy.mean`). -/
def meanQ (l : List ℚ) : ℚ := l.sum / (l.length : ℚ)

/-- Line 367-370: `this_validation_loss`, the mean of
`validate_model(i)` over all validation minibatches. -/
def validationLossAt (cfg : LoopCfg) (iter : ℕ) : ℚ :=
  meanQ ((List.range cfg.nValid).map (cfg.valLoss iter))

/-- Lines 401-402: the test score, the mean of `test_model(i)` over all test
minibatches. -/
def testScoreAt (cfg : LoopCfg) (iter : ℕ) : ℚ :=
  meanQ ((List.range cfg.nTest).map (cfg.testLoss iter))

/-- Line 334: `patience = 10000`. -/
def initialPatience : ℕ := 10000

/-- Line 335: `patience_increase = 2`. -/
def patienceIncrease : ℕ := 2

/-- Line 337: `improvement_threshold = 0.995`. -/
def improvementThreshold : ℚ := 995 / 1000

/-- Line 339: `validation_frequency = min(n_train_batches, patience / 2)`,
computed once from the initial patience (Python 2 integer division). -/
def validationFrequency (cfg : LoopCfg) : ℕ :=
  min cfg.nTrain (initialPatience / 2)

/-- Line 364: does a validation run after the minibatch at iteration `iter`? -/
def validatesAt (vf iter : ℕ) : Bool := (iter + 1) % vf == 0

/-- Comparison against `best_validation_loss`, which starts as `numpy.inf`
(line 346); `none` stands for infinity. -/
def ltInf (x : ℚ) (best : Option ℚ) : Bool :=
  match best with
  | none => true
  | some v => x < v

/-- The comparison `this_validation_loss < best_validation_loss *
improvement_threshold` (lines 379-380); with `best = inf` the product is
infinite and the comparison holds. -/
def ltInfMul (x : ℚ) (best : Option ℚ) (c : ℚ) : Bool :=
  match best with
  | none => true
  | some v => x < v * c

/-- The mutable state of the training loop, together with event logs for the
actions the loop performs (minibatches trained, validations run, checkpoint
writes). -/
structure LoopState where
  patience : ℕ
  bestValidationLoss : Option ℚ
  bestIter : ℕ
  testScore : ℚ
  doneLooping : Bool
  trained : List ℕ
  validations : List (ℕ × ℚ)
  saves : List SaveEvent
  deriving Repr, DecidableEq

/-- Lines 334-352: the state before the loop. -/
def initState : LoopState :=
  { patience := initialPatience
    bestValidationLoss := none
    bestIter := 0
    testScore := 0
    doneLooping := false
    trained := []
    validations := []
    saves := [] }

/-- The body of the inner loop for one minibatch (lines 358-417): train on
the minibatch; if `(iter + 1) % validation_frequency == 0` compute the mean
validation loss, and on a strict improvement raise the patience when the
improvement also beats the threshold, record the new best loss and iteration,
write the checkpoint (all six layers pickled into
`result_<nameDataset>.dat`) and recompute the test score; finally set
`done_looping` (the `break`) when `patience <= iter`. -/
def stepIter (cfg : LoopCfg) (vf iter : ℕ) (st : LoopState) : LoopState :=
  let st1 := { st with trained := st.trained ++ [iter] }
  let st2 :=
    if validatesAt vf iter then
      let thisLoss := validationLossAt cfg iter
      let stv := { st1 with validations := st1.validations ++ [(iter, thisLoss)] }
      if ltInf thisLoss stv.bestValidationLoss then
        { stv with
          patience :=
            if ltInfMul thisLoss stv.bestValidationLoss improvementThreshold then
              max stv.patience (iter * patienceIncrease)
            else stv.patience
          bestValidationLoss := some thisLoss
          bestIter := iter
          saves := stv.saves ++
            [⟨iter, checkpointFileName cfg.nameDataset, [0, 1, 2, 3, 4, 5]⟩]
          testScore := testScoreAt cfg iter }
      else stv
    else st1
  if st2.patience ≤ iter then { st2 with doneLooping := true } else st2

/-- The inner `for minibatch_index in xrange(n_train_batches)` loop
(line 356), for the remaining `n` minibatches starting at index `mb` of the
1-based epoch `epoch`; `iter = (epoch - 1) * n_train_batches +
minibatch_index` (line 358).  A set `doneLooping` is the `break` taken at
line 417. -/
def runBatches (cfg : LoopCfg) (vf epoch : ℕ) : ℕ → ℕ → LoopState → LoopState
  | 0, _, st => st
  | n + 1, mb, st =>
    if st.doneLooping then st
    else runBatches cfg vf epoch n (mb + 1)
      (stepIter cfg vf ((epoch - 1) * cfg.nTrain + mb) st)

/-- The outer `while (epoch < n_epochs) and (not done_looping)` loop
(line 354), with `n` epochs remaining and `epoch` epochs already run. -/
def runEpochs (cfg : LoopCfg) (vf : ℕ) : ℕ → ℕ → LoopState → LoopState
  | 0, _, st => st
  | n + 1, epoch, st =>
    if st.doneLooping then st
    else runEpochs cfg vf n (epoch + 1)
      (runBatches cfg vf (epoch + 1) cfg.nTrain 0 st)

/-- The whole training loop of `evaluate_lenet5` (lines 334-417). -/
def runLoop (cfg : LoopCfg) : LoopState :=
  runEpochs cfg (validationFrequency cfg) cfg.nEpochs 0 initState

/-! ### A flat view of the loop, used to state and prove its properties -/

/-- Process a list of iteration indices in order, honouring the sticky
`done_looping` flag exactly as the nested loops do. -/
def runIters (cfg : LoopCfg) (vf : ℕ) : List ℕ → LoopState → LoopState
  | [], st => st
  | i :: rest, st =>
    if st.doneLooping then st
    else runIters cfg vf rest (stepIter cfg vf i st)

/-- The state after the first `n` flat iterations (frozen once
`done_looping` is set). -/
def clippedRun (cfg : LoopCfg) (vf : ℕ) : ℕ → LoopState
  | 0 => initState
  | n + 1 =>
    let st := clippedRun cfg vf n
    if st.doneLooping then st else stepIter cfg vf n st

theorem runIters_of_done (cfg : LoopCfg) (vf : ℕ) (l : List ℕ)
    (st : LoopState) (h : st.doneLooping = true) :
    runIters cfg vf l st = st := by
  cases l with
  | nil => rfl
  | cons i rest => simp [runIters, h]

theorem runIters_append (cfg : LoopCfg) (vf : ℕ) (l1 l2 : List ℕ)
    (st : LoopState) :
    runIters cfg vf (l1 ++ l2) st = runIters cfg vf l2 (runIters cfg vf l1 st) := by
  induction l1 generalizing st with
  | nil => rfl
  | cons i rest ih =>
    by_cases h : st.doneLooping
    · simp [runIters, h, runIters_of_done cfg vf l2 st h]
    · simp [runIters, h, ih]

theorem runBatches_eq_runIters (cfg : LoopCfg) (vf epoch : ℕ) :
    ∀ (n mb : ℕ) (st : LoopState),
      runBatches cfg vf epoch n mb st =
        runIters cfg vf
          ((List.range n).map (fun j => (epoch - 1) * cfg.nTrain + (mb + j))) st := by
  intro n
  induction n with
  | zero => intro mb st; rfl
  | succ n ih =>
    intro mb st
    rw [List.range_succ_eq_map]
    by_cases h : st.doneLooping
    · simp [runBatches, runIters, h]
    · simp only [List.map_cons, List.map_map, runBatches, runIters, h,
        if_false, Bool.false_eq_true, Nat.add_zero]
      rw [ih (mb + 1) (stepIter cfg vf ((epoch - 1) * cfg.nTrain + mb) st)]
      congr 1
      apply List.map_congr_left
      intro j _
      simp only [Function.comp_apply]
      omega

theorem runEpochs_eq_runIters (cfg : LoopCfg) (vf : ℕ) :
    ∀ (n epoch : ℕ) (st : LoopState),
      runEpochs cfg vf n epoch st =
        runIters cfg vf
          (((List.range n).map (fun j =>
            (List.range cfg.nTrain).map (fun m => (epoch + j) * cfg.nTrain + m))).flatten)
          st := by
  intro n
  induction n with
  | zero => intro epoch st; rfl
  | succ n ih =>
    intro epoch st
    rw [List.range_succ_eq_map]
    by_cases h : st.doneLooping
    · simp only [runEpochs, h, if_true]
      rw [runIters_of_done cfg vf _ st h]
    · simp only [List.map_cons, List.map_map, List.flatten_cons, runEpochs, h,
        if_false, Bool.false_eq_true, Nat.add_zero]
      rw [runIters_append, runBatches_eq_runIters, ih (epoch + 1)]
      have harg : ((List.range cfg.nTrain).map
          (fun j => (epoch + 1 - 1) * cfg.nTrain + (0 + j))) =
          ((List.range cfg.nTrain).map (fun m => (epoch + 0) * cfg.nTrain + m)) := by
        apply List.map_congr_left
        intro j _
        simp
      rw [harg]
      refine congrArg (fun l => runIters cfg vf l _) ?_
      refine congrArg List.flatten ?_
      apply List.map_congr_left
      intro j _
      simp only [Function.comp_apply]
      have harg2 : epoch + Nat.succ j = epoch + 1 + j := by omega
      rw [harg2]

theorem flatten_epoch_ranges (E T : ℕ) :
    ((List.range E).map (fun e => (List.range T).map (fun m => e * T + m))).flatten =
      List.range (E * T) := by
  induction E with
  | zero => simp
  | succ E ih =>
    rw [List.range_succ, List.map_append, List.flatten_append, ih]
    simp only [List.map_cons, List.map_nil, List.flatten_cons, List.flatten_nil,
      List.append_nil]
    rw [Nat.succ_mul, List.range_add]

theorem runIters_range_eq_clipped (cfg : LoopCfg) (vf : ℕ) (N : ℕ) :
    runIters cfg vf (List.range N) initState = clippedRun cfg vf N := by
  induction N with
  | zero => rfl
  | succ N ih =>
    rw [List.range_succ, runIters_append, ih]
    show runIters cfg vf [N] _ = _
    by_cases h : (clippedRun cfg vf N).doneLooping
    · simp [runIters, clippedRun, h]
    · simp [runIters, clippedRun, h]

/-- The nested training loop equals the flat clipped iteration over
`n_epochs * n_train_batches` iteration indices. -/
theorem runLoop_eq_clipped (cfg : LoopCfg) :
    runLoop cfg =
      clippedRun cfg (validationFrequency cfg) (cfg.nEpochs * cfg.nTrain) := by
  rw [runLoop, runEpochs_eq_runIters]
  simp only [Nat.zero_add]
  rw [flatten_epoch_ranges, runIters_range_eq_clipped]

/-! ### Field-wise characterization of one loop-body step -/

theorem stepIter_trained (cfg : LoopCfg) (vf iter : ℕ) (st : LoopState) :
    (stepIter cfg vf iter st).trained = st.trained ++ [iter] := by
  simp only [stepIter]
  split_ifs <;> rfl

theorem stepIter_validations (cfg : LoopCfg) (vf iter : ℕ) (st : LoopState) :
    (stepIter cfg vf iter st).validations =
      if validatesAt vf iter then
        st.validations ++ [(iter, validationLossAt cfg iter)]
      else st.validations := by
  simp only [stepIter]
  split_ifs <;> rfl

theorem stepIter_saves (cfg : LoopCfg) (vf iter : ℕ) (st : LoopState) :
    (stepIter cfg vf iter st).saves =
      if validatesAt vf iter &&
          ltInf (validationLossAt cfg iter) st.bestValidationLoss then
        st.saves ++
          [⟨iter, checkpointFileName cfg.nameDataset, [0, 1, 2, 3, 4, 5]⟩]
      else st.saves := by
  simp only [stepIter]
  split_ifs with h1 h2 h3 h1 h2 <;> simp_all

theorem stepIter_best (cfg : LoopCfg) (vf iter : ℕ) (st : LoopState) :
    (stepIter cfg vf iter st).bestValidationLoss =
      if validatesAt vf iter &&
          ltInf (validationLossAt cfg iter) st.bestValidationLoss then
        some (validationLossAt cfg iter)
      else st.bestValidationLoss := by
  simp only [stepIter]
  split_ifs with h1 h2 h3 h1 h2 <;> simp_all

theorem stepIter_bestIter (cfg : LoopCfg) (vf iter : ℕ) (st : LoopState) :
    (stepIter cfg vf iter st).bestIter =
      if validatesAt vf iter &&
          ltInf (validationLossAt cfg iter) st.bestValidationLoss then
        iter
      else st.bestIter := by
  simp only [stepIter]
  split_ifs with h1 h2 h3 h1 h2 <;> simp_all

theorem stepIter_testScore (cfg : LoopCfg) (vf iter : ℕ) (st : LoopState) :
    (stepIter cfg vf iter st).testScore =
      if validatesAt vf iter &&
          ltInf (validationLossAt cfg iter) st.bestValidationLoss then
        testScoreAt cfg iter
      else st.testScore := by
  simp only [stepIter]
  split_ifs with h1 h2 h3 h1 h2 <;> simp_all

theorem stepIter_patience (cfg : LoopCfg) (vf iter : ℕ) (st : LoopState) :
    (stepIter cfg vf iter st).patience =
      if validatesAt vf iter &&
          ltInf (validationLossAt cfg iter) st.bestValidationLoss &&
          ltInfMul (validationLossAt cfg iter) st.bestValidationLoss
            improvementThreshold then
        max st.patience (iter * patienceIncrease)
      else st.patience := by
  simp only [stepIter]
  split_ifs with h1 h2 h3 h1 h2 <;> simp_all

theorem stepIter_done (cfg : LoopCfg) (vf iter : ℕ) (st : LoopState) :
    (stepIter cfg vf iter st).doneLooping =
      (st.doneLooping || decide ((stepIter cfg vf iter st).patience ≤ iter)) := by
  rw [stepIter_patience]
  simp only [stepIter]
  split_ifs with h1 h2 h3 h1 h2 <;> simp_all

/-! ### Running minima of the validation-loss log -/

/-- The running value of `best_validation_loss` produced by folding the
validation log from an initial best `b`. -/
def runningBestFrom (b : Option ℚ) : List (ℕ × ℚ) → Option ℚ
  | [] => b
  | e :: rest => runningBestFrom (if ltInf e.2 b then some e.2 else b) rest

/-- The iterations of the validation log whose loss strictly improves on the
running best, starting from an initial best `b`. -/
def strictImprovementsFrom (b : Option ℚ) : List (ℕ × ℚ) → List ℕ
  | [] => []
  | e :: rest =>
    if ltInf e.2 b then e.1 :: strictImprovementsFrom (some e.2) rest
    else strictImprovementsFrom b rest

theorem runningBestFrom_append (b : Option ℚ) (l : List (ℕ × ℚ)) (i : ℕ) (x : ℚ) :
    runningBestFrom b (l ++ [(i, x)]) =
      if ltInf x (runningBestFrom b l) then some x else runningBestFrom b l := by
  induction l generalizing b with
  | nil => rfl
  | cons e rest ih =>
    simp only [List.cons_append, runningBestFrom]
    exact ih _

theorem strictImprovementsFrom_append (b : Option ℚ) (l : List (ℕ × ℚ))
    (i : ℕ) (x : ℚ) :
    strictImprovementsFrom b (l ++ [(i, x)]) =
      strictImprovementsFrom b l ++
        (if ltInf x (runningBestFrom b l) then [i] else []) := by
  induction l generalizing b with
  | nil => simp [strictImprovementsFrom, runningBestFrom]
  | cons e rest ih =>
    simp only [List.cons_append, strictImprovementsFrom, runningBestFrom]
    split_ifs with h <;> simp [ih] <;> simp_all

/-- `min` of an `Option ℚ` (with `none` as infinity) and a value. -/
def optMin (b : Option ℚ) (x : ℚ) : Option ℚ :=
  match b with
  | none => some x
  | some v => some (min v x)

/-- The minimum of a list of rationals, `none` for the empty list. -/
def minLoss (l : List ℚ) : Option ℚ := l.foldl optMin none

theorem ltInf_step (b : Option ℚ) (x : ℚ) :
    (if ltInf x b then some x else b) = optMin b x := by
  cases b with
  | none => rfl
  | some v =>
    simp only [ltInf, optMin, decide_eq_true_eq]
    split_ifs with h
    · rw [min_eq_right (le_of_lt h)]
    · rw [min_eq_left (le_of_not_lt h)]

theorem runningBestFrom_eq_foldl (b : Option ℚ) (l : List (ℕ × ℚ)) :
    runningBestFrom b l = (l.map Prod.snd).foldl optMin b := by
  induction l generalizing b with
  | nil => rfl
  | cons e rest ih =>
    simp only [runningBestFrom, List.map_cons, List.foldl_cons, ltInf_step, ih]

/-- The running best over the whole validation log is the minimum of the
logged losses. -/
theorem runningBestFrom_none_eq_min (l : List (ℕ × ℚ)) :
    runningBestFrom none l = minLoss (l.map Prod.snd) :=
  runningBestFrom_eq_foldl none l

/-! ### The loop invariant -/

/-- The invariant of the training loop after `N` flat iterations: the trained
minibatches are exactly the iteration prefix; the validation log records a
validation exactly at the iterations where `(iter + 1)` is a multiple of the
validation frequency, each with the mean validation loss; the checkpoint log
records exactly the validations that strictly improved on the running best;
`best_validation_loss` is the running minimum of the logged losses; and every
checkpoint wrote all six layers to `result_<nameDataset>.dat`. -/
def LoopInv (cfg : LoopCfg) (vf N : ℕ) (st : LoopState) : Prop :=
  st.trained = List.range st.trained.length ∧
  st.trained.length ≤ N ∧
  (st.doneLooping = false → st.trained.length = N) ∧
  st.validations.map Prod.fst =
    (List.range st.trained.length).filter (fun it => validatesAt vf it) ∧
  (∀ p ∈ st.validations, p.2 = validationLossAt cfg p.1) ∧
  st.saves.map SaveEvent.iter = strictImprovementsFrom none st.validations ∧
  st.bestValidationLoss = runningBestFrom none st.validations ∧
  (∀ e ∈ st.saves, e.file = checkpointFileName cfg.nameDataset ∧
    e.layersDumped = [0, 1, 2, 3, 4, 5])

theorem loopInv_clippedRun (cfg : LoopCfg) (vf N : ℕ) :
    LoopInv cfg vf N (clippedRun cfg vf N) := by
  induction N with
  | zero =>
    refine ⟨rfl, le_refl 0, fun _ => rfl, rfl, ?_, rfl, rfl, ?_⟩ <;> simp [clippedRun, initState]
  | succ N ih =>
    obtain ⟨h1, h2, h3, h4, h5, h6, h7, h8⟩ := ih
    by_cases hd : (clippedRun cfg vf N).doneLooping
    · have hfix : clippedRun cfg vf (N + 1) = clippedRun cfg vf N := by
        simp [clippedRun, hd]
      rw [hfix]
      exact ⟨h1, Nat.le_succ_of_le h2, fun hf => absurd hd (by simp [hf]), h4, h5, h6, h7, h8⟩
    · have hd' : (clippedRun cfg vf N).doneLooping = false := by
        simpa using hd
      have hstep : clippedRun cfg vf (N + 1) =
          stepIter cfg vf N (clippedRun cfg vf N) := by
        simp [clippedRun, hd']
      have hlenN : (clippedRun cfg vf N).trained.length = N := h3 hd'
      have htr : (stepIter cfg vf N (clippedRun cfg vf N)).trained =
          List.range (N + 1) := by
        rw [stepIter_trained, List.range_succ]
        rw [h1, hlenN]
      have hlen : (stepIter cfg vf N (clippedRun cfg vf N)).trained.length = N + 1 := by
        rw [htr, List.length_range]
      have hrb : runningBestFrom none (clippedRun cfg vf N).validations =
          (clippedRun cfg vf N).bestValidationLoss := h7.symm
      rw [hstep]
      refine ⟨?_, ?_, ?_, ?_, ?_, ?_, ?_, ?_⟩
      · rw [htr]; simp
      · rw [hlen]
      · intro _; rw [hlen]
      · rw [stepIter_validations, hlen, List.range_succ, List.filter_append]
        by_cases hv : validatesAt vf N <;>
          simp [hv, h4, hlenN, List.filter_cons]
      · rw [stepIter_validations]
        by_cases hv : validatesAt vf N
        · simp only [hv, if_true]
          intro p hp
          rcases List.mem_append.mp hp with hp1 | hp2
          · exact h5 p hp1
          · rcases List.mem_singleton.mp hp2 with rfl
            rfl
        · simp only [hv, if_false]
          exact h5
      · rw [stepIter_saves, stepIter_validations]
        by_cases hv : validatesAt vf N
        · by_cases hl : ltInf (validationLossAt cfg N)
              (clippedRun cfg vf N).bestValidationLoss
          · simp only [hv, hl, Bool.and_self, if_true, List.map_append,
              List.map_cons, List.map_nil, h6, strictImprovementsFrom_append, hrb, hl,
              if_true]
          · have hl' : ltInf (validationLossAt cfg N)
                (clippedRun cfg vf N).bestValidationLoss = false := by simpa using hl
            simp only [hv, hl', Bool.true_and, Bool.and_false,
              Bool.false_eq_true, if_false, if_true]
            rw [strictImprovementsFrom_append, hrb, hl']
            simp [h6]
        · have hv' : validatesAt vf N = false := by simpa using hv
          simp [hv', h6]
      · rw [stepIter_best, stepIter_validations]
        by_cases hv : validatesAt vf N
        · by_cases hl : ltInf (validationLossAt cfg N)
              (clippedRun cfg vf N).bestValidationLoss
          · simp only [hv, hl, Bool.and_self, if_true,
              runningBestFrom_append, hrb, hl]
          · have hl' : ltInf (validationLossAt cfg N)
                (clippedRun cfg vf N).bestValidationLoss = false := by simpa using hl
            simp only [hv, hl', Bool.true_and, Bool.and_false,
              Bool.false_eq_true, if_false, if_true]
            rw [runningBestFrom_append, hrb, hl']
            simp [h7]
        · have hv' : validatesAt vf N = false := by simpa using hv
          simp [hv', h7]
      · rw [stepIter_saves]
        by_cases hv : validatesAt vf N
        · by_cases hl : ltInf (validationLossAt cfg N)
              (clippedRun cfg vf N).bestValidationLoss
          · simp only [hv, hl, Bool.and_self, if_true, Bool.true_and]
            intro e he
            rcases List.mem_append.mp he with he1 | he2
            · exact h8 e he1
            · rcases List.mem_singleton.mp he2 with rfl
              exact ⟨rfl, rfl⟩
          · have hl' : ltInf (validationLossAt cfg N)
                (clippedRun cfg vf N).bestValidationLoss = false := by simpa using hl
            simp only [hv, hl', Bool.true_and, Bool.and_false, if_false]
            exact h8
        · have hv' : validatesAt vf N = false := by simpa using hv
          simp only [hv', Bool.false_and, if_false]
          exact h8

/-! ### The stopping behaviour -/

theorem clippedRun_done_mono (cfg : LoopCfg) (vf : ℕ) {m n : ℕ} (h : m ≤ n)
    (hd : (clippedRun cfg vf m).doneLooping = true) :
    (clippedRun cfg vf n).doneLooping = true := by
  induction n with
  | zero =>
    have : m = 0 := Nat.le_zero.mp h
    exact this ▸ hd
  | succ n ih =>
    rcases Nat.lt_or_ge m (n + 1) with hlt | hge
    · have hdn := ih (Nat.lt_succ_iff.mp hlt)
      simp [clippedRun, hdn]
    · have : m = n + 1 := le_antisymm h hge
      exact this ▸ hd

theorem clippedRun_frozen (cfg : LoopCfg) (vf : ℕ) {N M : ℕ} (h : N ≤ M)
    (hd : (clippedRun cfg vf N).doneLooping = true) :
    clippedRun cfg vf M = clippedRun cfg vf N := by
  induction M with
  | zero =>
    have : N = 0 := Nat.le_zero.mp h
    rw [this]
  | succ M ih =>
    rcases Nat.lt_or_ge N (M + 1) with hlt | hge
    · have hNM : N ≤ M := Nat.lt_succ_iff.mp hlt
      have hdM : (clippedRun cfg vf M).doneLooping = true :=
        clippedRun_done_mono cfg vf hNM hd
      rw [show clippedRun cfg vf (M + 1) = clippedRun cfg vf M by
        simp [clippedRun, hdM]]
      exact ih hNM
    · have : N = M + 1 := le_antisymm h hge
      rw [this]

theorem clippedRun_done_false_of_lt_len (cfg : LoopCfg) (vf M k : ℕ)
    (hk : k < (clippedRun cfg vf M).trained.length) :
    (clippedRun cfg vf k).doneLooping = false := by
  by_contra h
  have hd : (clippedRun cfg vf k).doneLooping = true := by
    simpa using h
  have hlenM : (clippedRun cfg vf M).trained.length ≤ M :=
    (loopInv_clippedRun cfg vf M).2.1
  have hkM : k ≤ M := le_of_lt (lt_of_lt_of_le hk hlenM)
  have hfr := clippedRun_frozen cfg vf hkM hd
  have hlenk : (clippedRun cfg vf k).trained.length ≤ k :=
    (loopInv_clippedRun cfg vf k).2.1
  rw [hfr] at hk
  exact absurd (lt_of_lt_of_le hk hlenk) (lt_irrefl k)

theorem clippedRun_patience_gt_of_continue (cfg : LoopCfg) (vf M k : ℕ)
    (hk : k + 1 < (clippedRun cfg vf M).trained.length) :
    k < (clippedRun cfg vf (k + 1)).patience := by
  have hd1 : (clippedRun cfg vf (k + 1)).doneLooping = false :=
    clippedRun_done_false_of_lt_len cfg vf M (k + 1) hk
  have hd0 : (clippedRun cfg vf k).doneLooping = false :=
    clippedRun_done_false_of_lt_len cfg vf M k (Nat.lt_of_succ_lt hk)
  have hstep : clippedRun cfg vf (k + 1) =
      stepIter cfg vf k (clippedRun cfg vf k) := by
    simp [clippedRun, hd0]
  have hdone := stepIter_done cfg vf k (clippedRun cfg vf k)
  rw [← hstep, hd1, hd0] at hdone
  simp only [Bool.false_or] at hdone
  have : ¬ (clippedRun cfg vf (k + 1)).patience ≤ k := by
    intro hle
    rw [decide_eq_true hle] at hdone
    exact Bool.false_ne_true hdone
  omega

theorem clippedRun_stop_reason (cfg : LoopCfg) (vf M : ℕ)
    (h : (clippedRun cfg vf M).trained.length < M) :
    0 < (clippedRun cfg vf M).trained.length ∧
      (clippedRun cfg vf M).patience ≤ (clippedRun cfg vf M).trained.length - 1 := by
  have hdM : (clippedRun cfg vf M).doneLooping = true := by
    by_contra hc
    have : (clippedRun cfg vf M).doneLooping = false := by simpa using hc
    have := (loopInv_clippedRun cfg vf M).2.2.1 this
    omega
  have hex : ∃ n, (clippedRun cfg vf n).doneLooping = true := ⟨M, hdM⟩
  have hd0 : (clippedRun cfg vf (Nat.find hex)).doneLooping = true :=
    Nat.find_spec hex
  have hpos : 0 < Nat.find hex := by
    rcases Nat.eq_zero_or_pos (Nat.find hex) with h0 | hp
    · exfalso
      rw [h0] at hd0
      exact Bool.false_ne_true hd0
    · exact hp
  have hprev : (clippedRun cfg vf (Nat.find hex - 1)).doneLooping = false := by
    have := Nat.find_min hex (m := Nat.find hex - 1) (by omega)
    simpa using this
  have hNM : Nat.find hex ≤ M := Nat.find_min' hex hdM
  have hfr := clippedRun_frozen cfg vf hNM hd0
  have hsucc : Nat.find hex - 1 + 1 = Nat.find hex := by omega
  have hstep : clippedRun cfg vf (Nat.find hex) =
      stepIter cfg vf (Nat.find hex - 1) (clippedRun cfg vf (Nat.find hex - 1)) := by
    rw [← hsucc]
    simp [clippedRun, hprev]
  have hlenprev : (clippedRun cfg vf (Nat.find hex - 1)).trained.length =
      Nat.find hex - 1 :=
    (loopInv_clippedRun cfg vf (Nat.find hex - 1)).2.2.1 hprev
  have hlenN : (clippedRun cfg vf (Nat.find hex)).trained.length = Nat.find hex := by
    rw [hstep, stepIter_trained]
    simp [hlenprev]
    omega
  have hdone := stepIter_done cfg vf (Nat.find hex - 1)
      (clippedRun cfg vf (Nat.find hex - 1))
  rw [← hstep, hd0, hprev] at hdone
  simp only [Bool.false_or] at hdone
  have hpat : (clippedRun cfg vf (Nat.find hex)).patience ≤ Nat.find hex - 1 :=
    of_decide_eq_true hdone.symm
  constructor
  · rw [hfr, hlenN]; exact hpos
  · rw [hfr, hlenN]; exact hpat


/-! ## Dataset ingestion (lines 226-239) -/

/-- A numeric matrix as loaded from a `.mat` file. -/
abbrev Mat := List (List ℚ)

/-- Number of columns of a (rectangular) matrix. -/
def numCols (m : Mat) : ℕ :=
  match m with
  | [] => 0
  | r :: _ => r.length

/-- `numpy.transpose` of a rectangular matrix: column `j` of the input
becomes row `j` of the result. -/
def transposeMat (m : Mat) : Mat :=
  (List.range (numCols m)).map fun j => m.map fun row => row.getD j 0

/-- Row `j` of the transpose is the `j`-th column of the input. -/
theorem transposeMat_row (m : Mat) (j : ℕ) (hj : j < numCols m) :
    (transposeMat m)[j]? = some (m.map fun row => row.getD j 0) := by
  rw [transposeMat, List.getElem?_map, List.getElem?_range hj]
  rfl

/-- The six matrices loaded by `evaluate_lenet5`, as Theano shared variables
(lines 228-239). -/
structure DataPartitions where
  train_set_x : Mat
  valid_set_x : Mat
  test_set_x : Mat
  train_set_y : Mat
  valid_set_y : Mat
  test_set_y : Mat
  deriving Repr, DecidableEq

/-- The file opened at line 226: `pathDataset + 'data_' + nameDataset + '.mat'`. -/
def dataFileName (pathDataset nameDataset : String) : String :=
  pathDataset ++ "data_" ++ nameDataset ++ ".mat"

/-- The file opened at line 227: `pathDataset + 'pose_' + nameDataset + '.mat'`. -/
def poseFileName (pathDataset nameDataset : String) : String :=
  pathDataset ++ "pose_" ++ nameDataset ++ ".mat"

/-- Embedding of the dataset-ingestion block (lines 226-239).  `store f k` is
the matrix stored under key `k` of the `.mat` file named `f`; the features
come from the `data_` file under keys `ftrain`/`fvalidation`/`ftest` and the
pose targets from the `pose_` file under keys `rtrain`/`rvalidation`/`rtest`,
each transposed after loading. -/
def loadPoseDatasets (store : String → String → Mat)
    (pathDataset nameDataset : String) : DataPartitions :=
  let mat := store (dataFileName pathDataset nameDataset)
  let mat_result := store (poseFileName pathDataset nameDataset)
  { train_set_x := transposeMat (mat "ftrain")
    valid_set_x := transposeMat (mat "fvalidation")
    test_set_x := transposeMat (mat "ftest")
    train_set_y := transposeMat (mat_result "rtrain")
    valid_set_y := transposeMat (mat_result "rvalidation")
    test_set_y := transposeMat (mat_result "rtest") }

/-! ## The command line (lines 436-464)

Embedding of Python 2 `getopt.getopt(argv, "n:p:", ["nfile=", "pfile="])`
together with the option-processing loop of `__main__`.  Command-line
strings are modelled as `List Char`. -/

/-- A command-line token. -/
abbrev Arg := List Char

/-- One short option of a `getopt` short-option specification: its character
and whether it requires an argument. -/
structure ShortOpt where
  ch : Char
  hasArg : Bool
  deriving Repr, DecidableEq

/-- The short-option specification `"n:p:"` of line 447. -/
def shortSpec : List ShortOpt := [⟨'n', true⟩, ⟨'p', true⟩]

/-- The long-option specification `["nfile=", "pfile="]` of line 447. -/
def longSpec : List Arg := ["nfile=".toList, "pfile=".toList]

/-- `getopt.short_has_arg`: whether short option `c` takes an argument;
an unrecognized option is a `GetoptError`. -/
def short_has_arg (c : Char) : List ShortOpt → Except Unit Bool
  | [] => .error ()
  | s :: rest => if s.ch = c then .ok s.hasArg else short_has_arg c rest

/-- `getopt.do_shorts`: process a cluster of short options (the characters of
one `-...` token).  Returns the parsed `(option, value)` pairs and whether
the next positional argument was consumed as an option value. -/
def do_shorts (spec : List ShortOpt) :
    List Char → List Arg → Except Unit (List (Arg × Arg) × Bool)
  | [], _ => .ok ([], false)
  | c :: rest, args =>
    match short_has_arg c spec with
    | .error e => .error e
    | .ok true =>
      if rest = [] then
        match args with
        | [] => .error ()
        | a :: _ => .ok ([(['-', c], a)], true)
      else .ok ([(['-', c], rest)], false)
    | .ok false =>
      match do_shorts spec rest args with
      | .error e => .error e
      | .ok pr => .ok ((['-', c], []) :: pr.1, pr.2)

/-- Split a long-option token at its first `'='`, if any
(`opt.find('=')` in `getopt.do_longs`). -/
def splitAtEq : List Char → List Char × Option (List Char)
  | [] => ([], none)
  | c :: rest =>
    if c = '=' then ([], some rest)
    else
      let p := splitAtEq rest
      (c :: p.1, p.2)

/-- `getopt.long_has_args`: prefix-match `opt` against the long-option
specification; returns whether the matched option takes an argument and its
canonical (full) name.  No match, or an ambiguous prefix, is a
`GetoptError`. -/
def long_has_args (opt : List Char) (longopts : List Arg) :
    Except Unit (Bool × List Char) :=
  let possibilities := longopts.filter (fun o => opt.isPrefixOf o)
  if possibilities = [] then .error ()
  else if opt ∈ possibilities then .ok (false, opt)
  else if (opt ++ ['=']) ∈ possibilities then .ok (true, opt)
  else if 1 < possibilities.length then .error ()
  else
    let u := possibilities.headI
    if u.getLast? = some '=' then .ok (true, u.dropLast) else .ok (false, u)

/-- `getopt.do_longs`: process one `--...` token (already stripped of its
two dashes).  Returns the parsed `(option, value)` pair and whether the next
positional argument was consumed as the option value. -/
def do_long (longopts : List Arg) (optFull : List Char) (args : List Arg) :
    Except Unit ((Arg × Arg) × Bool) :=
  let p := splitAtEq optFull
  match long_has_args p.1 longopts with
  | .error e => .error e
  | .ok hc =>
    if hc.1 then
      match p.2 with
      | some v => .ok ((['-', '-'] ++ hc.2, v), false)
      | none =>
        match args with
        | [] => .error ()
        | a :: _ => .ok ((['-', '-'] ++ hc.2, a), true)
    else
      match p.2 with
      | some _ => .error ()
      | none => .ok ((['-', '-'] ++ hc.2, []), false)

/-- `getopt.getopt(args, shortopts, longopts)`: scan options left to right,
stopping at the first non-option token (or consuming a bare `--`); a parse
failure anywhere is a `GetoptError`.  Returns the parsed `(option, value)`
pairs and the remaining positional arguments. -/
def getoptGo (shorts : List ShortOpt) (longs : List Arg) (args : List Arg) :
    Except Unit (List (Arg × Arg) × List Arg) :=
  match args with
  | [] => .ok ([], [])
  | a :: rest =>
    if a.head? ≠ some '-' ∨ a = ['-'] then .ok ([], a :: rest)
    else if a = ['-', '-'] then .ok ([], rest)
    else if a.take 2 = ['-', '-'] then
      match do_long longs (a.drop 2) rest with
      | .error e => .error e
      | .ok pr =>
        match getoptGo shorts longs (if pr.2 then rest.tail else rest) with
        | .error e => .error e
        | .ok res => .ok (pr.1 :: res.1, res.2)
    else
      match do_shorts shorts (a.drop 1) rest with
      | .error e => .error e
      | .ok pr =>
        match getoptGo shorts longs (if pr.2 then rest.tail else rest) with
        | .error e => .error e
        | .ok res => .ok (pr.1 ++ res.1, res.2)
termination_by args.length
decreasing_by
  all_goals
    simp only [List.length_cons]
    split
    · simp only [List.length_tail]; omega
    · omega

/-- Line 447: `getopt.getopt(argv, "n:p:", ["nfile=", "pfile="])`. -/
def getoptNP (argv : List Arg) : Except Unit (List (Arg × Arg) × List Arg) :=
  getoptGo shortSpec longSpec argv

/-- The default values `nameDataset = 'activity13'`, `pathDataset = './'`
(lines 439-440), kept when `getopt` raises (lines 448-450). -/
def mainDefaults : Arg × Arg := ("activity13".toList, "./".toList)

/-- The option-processing loop of `__main__` (lines 452-457): `-n`/`--nfile`
sets the dataset name, `-p`/`--pfile` sets the dataset path. -/
def applyOpts : List (Arg × Arg) → Arg × Arg → Arg × Arg
  | [], acc => acc
  | oa :: rest, acc =>
    if oa.1 = "-n".toList ∨ oa.1 = "--nfile".toList then
      applyOpts rest (oa.2, acc.2)
    else if oa.1 = "-p".toList ∨ oa.1 = "--pfile".toList then
      applyOpts rest (acc.1, oa.2)
    else applyOpts rest acc

/-- The configuration `(nameDataset, pathDataset)` computed by `__main__`
(lines 436-457): on a `GetoptError` the defaults are kept (`default = True`
skips the option loop); otherwise the parsed options are applied in order and
the positional arguments are ignored. -/
def mainConfig (argv : List Arg) : Arg × Arg :=
  match getoptNP argv with
  | .error _ => mainDefaults
  | .ok pr => applyOpts pr.1 mainDefaults

/-! ### The options a successful parse can return -/

theorem short_has_arg_np (c : Char) (b : Bool)
    (h : short_has_arg c shortSpec = .ok b) : c = 'n' ∨ c = 'p' := by
  simp only [shortSpec, short_has_arg] at h
  split_ifs at h with h1 h2
  · exact Or.inl h1.symm
  · exact Or.inr h2.symm

theorem do_shorts_names (cluster : List Char) (args : List Arg)
    (pr : List (Arg × Arg) × Bool)
    (h : do_shorts shortSpec cluster args = .ok pr) :
    ∀ o ∈ pr.1, o.1 = "-n".toList ∨ o.1 = "-p".toList := by
  induction cluster generalizing args pr with
  | nil =>
    cases h
    intro o ho
    cases ho
  | cons c rest ih =>
    simp only [do_shorts] at h
    cases hsa : short_has_arg c shortSpec with
    | error e => rw [hsa] at h; cases h
    | ok b =>
      rw [hsa] at h
      have hc := short_has_arg_np c b hsa
      cases b with
      | true =>
        simp only at h
        by_cases hr : rest = []
        · rw [if_pos hr] at h
          cases args with
          | nil => cases h
          | cons a args1 =>
            cases h
            intro o ho
            rcases List.mem_singleton.mp ho with rfl
            rcases hc with rfl | rfl
            · exact Or.inl rfl
            · exact Or.inr rfl
        · rw [if_neg hr] at h
          cases h
          intro o ho
          rcases List.mem_singleton.mp ho with rfl
          rcases hc with rfl | rfl
          · exact Or.inl rfl
          · exact Or.inr rfl
      | false =>
        simp only at h
        cases hrec : do_shorts shortSpec rest args with
        | error e => rw [hrec] at h; cases h
        | ok pr2 =>
          rw [hrec] at h
          cases h
          intro o ho
          rcases List.mem_cons.mp ho with rfl | hmem
          · rcases hc with rfl | rfl
            · exact Or.inl rfl
            · exact Or.inr rfl
          · exact ih args pr2 hrec o hmem

theorem splitAtEq_fst_no_eq (s : List Char) : '=' ∉ (splitAtEq s).1 := by
  induction s with
  | nil => simp [splitAtEq]
  | cons c rest ih =>
    rw [splitAtEq]
    by_cases hc : c = '='
    · simp [hc]
    · simp only [if_neg hc]
      intro hmem
      rcases List.mem_cons.mp hmem with heq | hmem2
      · exact hc heq.symm
      · exact ih hmem2

theorem listHeadI_mem {α : Type} [Inhabited α] (l : List α) (h : l ≠ []) :
    l.headI ∈ l := by
  cases l with
  | nil => exact absurd rfl h
  | cons a tl => simp [List.headI]

theorem long_has_args_np (opt : List Char) (hne : '=' ∉ opt)
    (hc : Bool × List Char) (h : long_has_args opt longSpec = .ok hc) :
    hc.2 = "nfile".toList ∨ hc.2 = "pfile".toList := by
  rw [long_has_args] at h
  simp only at h
  by_cases h1 : List.filter (fun o => opt.isPrefixOf o) longSpec = []
  · rw [if_pos h1] at h
    cases h
  · rw [if_neg h1] at h
    by_cases h2 : opt ∈ List.filter (fun o => opt.isPrefixOf o) longSpec
    · -- exact match: opt itself would be in the long spec, but opt has no '='
      exfalso
      have hmem := (List.mem_filter.mp h2).1
      simp only [longSpec, List.mem_cons, List.not_mem_nil, or_false] at hmem
      rcases hmem with rfl | rfl
      · exact hne (by decide)
      · exact hne (by decide)
    · rw [if_neg h2] at h
      by_cases h3 : opt ++ ['='] ∈ List.filter (fun o => opt.isPrefixOf o) longSpec
      · -- match with '=': `opt ++ "="` is in the long spec
        rw [if_pos h3] at h
        have hmem := (List.mem_filter.mp h3).1
        simp only [longSpec, List.mem_cons, List.not_mem_nil, or_false] at hmem
        cases h
        rcases hmem with heq | heq
        · left
          have heq2 : opt ++ ['='] = "nfile".toList ++ ['='] := by
            rw [heq]
            decide
          exact List.append_cancel_right heq2
        · right
          have heq2 : opt ++ ['='] = "pfile".toList ++ ['='] := by
            rw [heq]
            decide
          exact List.append_cancel_right heq2
      · rw [if_neg h3] at h
        by_cases h4 : 1 < (List.filter (fun o => opt.isPrefixOf o) longSpec).length
        · rw [if_pos h4] at h
          cases h
        · rw [if_neg h4] at h
          -- unique prefix: the single possibility is a long option
          have hu : (List.filter (fun o => opt.isPrefixOf o) longSpec).headI ∈
              List.filter (fun o => opt.isPrefixOf o) longSpec :=
            listHeadI_mem _ h1
          have humem := (List.mem_filter.mp hu).1
          generalize hgen :
            (List.filter (fun o => opt.isPrefixOf o) longSpec).headI = u at h humem
          simp only [longSpec, List.mem_cons, List.not_mem_nil, or_false] at humem
          rcases humem with rfl | rfl
          · rw [if_pos (show ("nfile=".toList).getLast? = some '=' by decide)] at h
            cases h
            left
            decide
          · rw [if_pos (show ("pfile=".toList).getLast? = some '=' by decide)] at h
            cases h
            right
            decide

theorem do_long_names (optFull : List Char) (args : List Arg)
    (pr : (Arg × Arg) × Bool) (h : do_long longSpec optFull args = .ok pr) :
    pr.1.1 = "--nfile".toList ∨ pr.1.1 = "--pfile".toList := by
  rw [do_long] at h
  cases hla : long_has_args (splitAtEq optFull).1 longSpec with
  | error e => rw [hla] at h; cases h
  | ok hc =>
    rw [hla] at h
    have hcanon := long_has_args_np (splitAtEq optFull).1
      (splitAtEq_fst_no_eq optFull) hc hla
    have hgoal : ∀ v : Arg, pr.1.1 = ['-', '-'] ++ hc.2 →
        pr.1.1 = "--nfile".toList ∨ pr.1.1 = "--pfile".toList := by
      intro _ hname
      rcases hcanon with h2 | h2 <;> rw [hname, h2]
      · left; decide
      · right; decide
    simp only at h
    by_cases hb : hc.1 = true
    · rw [if_pos hb] at h
      cases hp : (splitAtEq optFull).2 with
      | some v =>
        rw [hp] at h
        cases h
        exact hgoal [] rfl
      | none =>
        rw [hp] at h
        cases args with
        | nil => cases h
        | cons a args1 =>
          cases h
          exact hgoal [] rfl
    · rw [if_neg hb] at h
      cases hp : (splitAtEq optFull).2 with
      | some v => rw [hp] at h; cases h
      | none =>
        rw [hp] at h
        cases h
        exact hgoal [] rfl

theorem getoptGo_names :
    ∀ (n : ℕ) (args : List Arg), args.length ≤ n →
    ∀ res, getoptGo shortSpec longSpec args = .ok res →
    ∀ o ∈ res.1, o.1 = "-n".toList ∨ o.1 = "--nfile".toList ∨
      o.1 = "-p".toList ∨ o.1 = "--pfile".toList := by
  intro n
  induction n with
  | zero =>
    intro args hlen res h o ho
    have hargs : args = [] := List.length_eq_zero.mp (Nat.le_zero.mp hlen)
    subst hargs
    rw [getoptGo.eq_def] at h
    simp only at h
    cases h
    cases ho
  | succ n ih =>
    intro args hlen res h o ho
    cases args with
    | nil =>
      rw [getoptGo.eq_def] at h
      simp only at h
      cases h
      cases ho
    | cons a rest =>
      rw [getoptGo.eq_def] at h
      simp only at h
      by_cases hc1 : a.head? ≠ some '-' ∨ a = ['-']
      · rw [if_pos hc1] at h
        cases h
        cases ho
      · rw [if_neg hc1] at h
        by_cases hc2 : a = ['-', '-']
        · rw [if_pos hc2] at h
          cases h
          cases ho
        · rw [if_neg hc2] at h
          by_cases hc3 : a.take 2 = ['-', '-']
          · rw [if_pos hc3] at h
            cases hdl : do_long longSpec (a.drop 2) rest with
            | error e => rw [hdl] at h; cases h
            | ok pr =>
              rw [hdl] at h
              simp only at h
              cases hrec : getoptGo shortSpec longSpec
                  (if pr.2 then rest.tail else rest) with
              | error e => rw [hrec] at h; cases h
              | ok res2 =>
                rw [hrec] at h
                simp only at h
                cases h
                rcases List.mem_cons.mp ho with rfl | hmem
                · rcases do_long_names (a.drop 2) rest pr hdl with h5 | h5
                  · exact Or.inr (Or.inl h5)
                  · exact Or.inr (Or.inr (Or.inr h5))
                · have hlen2 : (if pr.2 then rest.tail else rest).length ≤ n := by
                    simp only [List.length_cons] at hlen
                    cases hb : pr.2
                    · simp only [Bool.false_eq_true, if_false]
                      omega
                    · simp only [if_true, List.length_tail]
                      omega
                  exact ih _ hlen2 res2 hrec o hmem
          · rw [if_neg hc3] at h
            cases hds : do_shorts shortSpec (a.drop 1) rest with
            | error e => rw [hds] at h; cases h
            | ok pr =>
              rw [hds] at h
              simp only at h
              cases hrec : getoptGo shortSpec longSpec
                  (if pr.2 then rest.tail else rest) with
              | error e => rw [hrec] at h; cases h
              | ok res2 =>
                rw [hrec] at h
                simp only at h
                cases h
                rcases List.mem_append.mp ho with hmem | hmem
                · rcases do_shorts_names (a.drop 1) rest pr hds o hmem with h5 | h5
                  · exact Or.inl h5
                  · exact Or.inr (Or.inr (Or.inl h5))
                · have hlen2 : (if pr.2 then rest.tail else rest).length ≤ n := by
                    simp only [List.length_cons] at hlen
                    cases hb : pr.2
                    · simp only [Bool.false_eq_true, if_false]
                      omega
                    · simp only [if_true, List.length_tail]
                      omega
                  exact ih _ hlen2 res2 hrec o hmem

/-! ## The claims -/

/-- C1: the model built by `buildLayers` is a fixed six-layer feed-forward
network: in order, exactly three convolution+max-pooling layers
(`LeNetConvPoolLayer`), then two fully-connected hidden layers (1024 and
2048 units), then one regression output layer with 51 outputs (the
`HiddenLayer` whose RMSE point error is the training cost, line 284).  No
other layers exist, and the topology is the same for every argument of
`evaluate_lenet5` — in particular it does not depend on the input data,
which `buildModel` does not even receive. -/
theorem claim_C1 (a : EvalArgs) :
    (buildModel a).layers.length = 6 ∧
    (buildModel a).layers.map Layer.isConvPool =
      [true, true, true, false, false, false] ∧
    (buildModel a).layers.map Layer.nOutOf =
      [none, none, none, some 1024, some 2048, some 51] :=
  ⟨rfl, rfl, rfl⟩

/-- C2: the hardcoded spatial dimensions are those of one 128×128 input:
the input matrix is reshaped to `(batch_size, 1, 128, 128)`; the three
conv-pool layers use 5×5, 5×5 and 6×6 kernels with 2×2 ignore-border
pooling; their input feature-map sides 128, 62, 29 satisfy
`side' = (side - kernel + 1) / 2` at every stage, ending at 12×12; and the
first fully-connected layer's input size is `nkerns[2] * 12 * 12`. -/
theorem claim_C2 (a : EvalArgs) :
    (buildModel a).inputShape = (a.batch_size, 1, 128, 128) ∧
    (buildModel a).layers.map Layer.imgSide =
      [some 128, some 62, some 29, none, none, none] ∧
    (buildModel a).layers.map Layer.kernelSide =
      [some 5, some 5, some 6, none, none, none] ∧
    (buildModel a).layers.map Layer.poolSide =
      [some 2, some 2, some 2, none, none, none] ∧
    (128 - 5 + 1) / 2 = 62 ∧ (62 - 5 + 1) / 2 = 29 ∧ (29 - 6 + 1) / 2 = 12 ∧
    (buildModel a).layers.map Layer.nInOf =
      [none, none, none, some (a.nkerns.2.2 * 12 * 12), some 1024, some 2048] :=
  ⟨rfl, rfl, rfl, rfl, rfl, rfl, rfl, rfl⟩

theorem pointErrorMse_nonneg (pred target : List ℚ) :
    0 ≤ pointErrorMse pred target := by
  rw [pointErrorMse]
  apply div_nonneg
  · apply List.sum_nonneg
    intro x hx
    rcases List.mem_map.mp hx with ⟨pt, _, rfl⟩
    positivity
  · positivity

/-- C3: each training step minimizes the RMSE point error of the output
layer on the current minibatch (the cost is the square root of the mean
squared point error over the slice
`train_set_y[index*batch_size : (index+1)*batch_size]`), and the update
list pairs every parameter `p` of all six layers — both `W` and `b` of each
— with `p - learning_rate * grad(cost, p)`, the same rule with the one
constant `learning_rate` for every parameter (no momentum, decay, or
per-parameter rates appear in the update). -/
theorem claim_C3 (learning_rate : ℚ) (val grad : ParamRef → ℚ)
    (pred y : List ℚ) (batch_size idx : ℕ) :
    (sgdUpdates learning_rate val grad).map Prod.fst = trainableParams ∧
    (∀ p ∈ trainableParams,
      (p, val p - learning_rate * grad p) ∈ sgdUpdates learning_rate val grad) ∧
    (∀ i, i < 6 → (i, 0) ∈ trainableParams ∧ (i, 1) ∈ trainableParams) ∧
    trainableParams.length = 12 ∧
    trainingCost pred batch_size idx y =
      Real.sqrt (pointErrorMse pred (minibatchSlice batch_size idx y)) ∧
    0 ≤ trainingCost pred batch_size idx y ∧
    trainingCost pred batch_size idx y ^ 2 =
      (pointErrorMse pred (minibatchSlice batch_size idx y) : ℝ) := by
  refine ⟨rfl, ?_, ?_, rfl, rfl, Real.sqrt_nonneg _, ?_⟩
  · intro p hp
    exact List.mem_map_of_mem (fun q => (q, val q - learning_rate * grad q)) hp
  · intro i hi
    interval_cases i <;> exact ⟨by decide, by decide⟩
  · exact Real.sq_sqrt (by exact_mod_cast pointErrorMse_nonneg pred _)

theorem claim_C3_witness :
    (((5, 0) : ParamRef), (1 : ℚ) - 1 * 1) ∈
      sgdUpdates 1 (fun _ => 1) (fun _ => 1) :=
  (claim_C3 1 (fun _ => 1) (fun _ => 1) [] [] 1 0).2.1 (5, 0) (by decide)

/-- C4: the training loop runs for at most `n_epochs` epochs (never more
than `n_epochs * n_train_batches` minibatch iterations, taken in flat order
`iter = (epoch-1)*n_train_batches + minibatch_index`), and never continues
past patience: every minibatch except possibly the last left
`iter < patience`, and if the loop stopped before exhausting its epochs then
the last executed iteration satisfied `patience ≤ iter`.  Patience starts at
10000 and is raised to `max(patience, iter * 2)` exactly when a validation
yields a new best loss that also beats the previous best times the
improvement threshold 0.995. -/
theorem claim_C4 (cfg : LoopCfg) :
    initState.patience = 10000 ∧ patienceIncrease = 2 ∧
    improvementThreshold = 995 / 1000 ∧
    (runLoop cfg).trained = List.range (runLoop cfg).trained.length ∧
    (runLoop cfg).trained.length ≤ cfg.nEpochs * cfg.nTrain ∧
    (∀ k, k + 1 < (runLoop cfg).trained.length →
      k < (clippedRun cfg (validationFrequency cfg) (k + 1)).patience) ∧
    ((runLoop cfg).trained.length < cfg.nEpochs * cfg.nTrain →
      0 < (runLoop cfg).trained.length ∧
      (runLoop cfg).patience ≤ (runLoop cfg).trained.length - 1) ∧
    (∀ iter st, (stepIter cfg (validationFrequency cfg) iter st).patience =
      if validatesAt (validationFrequency cfg) iter &&
          ltInf (validationLossAt cfg iter) st.bestValidationLoss &&
          ltInfMul (validationLossAt cfg iter) st.bestValidationLoss
            improvementThreshold then
        max st.patience (iter * patienceIncrease)
      else st.patience) := by
  have heq := runLoop_eq_clipped cfg
  obtain ⟨h1, h2, h3, h4, h5, h6, h7, h8⟩ :=
    loopInv_clippedRun cfg (validationFrequency cfg) (cfg.nEpochs * cfg.nTrain)
  refine ⟨rfl, rfl, rfl, ?_, ?_, ?_, ?_,
    stepIter_patience cfg (validationFrequency cfg)⟩
  · rw [heq]; exact h1
  · rw [heq]; exact h2
  · intro k hk
    rw [heq] at hk
    exact clippedRun_patience_gt_of_continue cfg (validationFrequency cfg)
      (cfg.nEpochs * cfg.nTrain) k hk
  · intro hlt
    rw [heq] at hlt ⊢
    exact clippedRun_stop_reason cfg (validationFrequency cfg)
      (cfg.nEpochs * cfg.nTrain) hlt

/-- A small concrete loop configuration used by witnesses: one epoch of two
minibatches, one validation and one test minibatch, all losses zero. -/
def witnessCfg : LoopCfg :=
  { nameDataset := "d"
    nEpochs := 1
    nTrain := 2
    nValid := 1
    nTest := 1
    valLoss := fun _ _ => 0
    testLoss := fun _ _ => 0 }

theorem claim_C4_witness :
    0 < (clippedRun witnessCfg (validationFrequency witnessCfg) (0 + 1)).patience :=
  (claim_C4 witnessCfg).2.2.2.2.2.1 0 (by decide)

/-- Comparison of two `best_validation_loss` values (`none` is infinity). -/
def leInf (a b : Option ℚ) : Bool :=
  match a, b with
  | _, none => true
  | none, some _ => false
  | some x, some y => x ≤ y

theorem leInf_refl (a : Option ℚ) : leInf a a = true := by
  cases a <;> simp [leInf]

theorem clippedRun_best_antitone (cfg : LoopCfg) (vf N : ℕ) :
    leInf (clippedRun cfg vf (N + 1)).bestValidationLoss
      (clippedRun cfg vf N).bestValidationLoss = true := by
  by_cases hd : (clippedRun cfg vf N).doneLooping
  · simp [clippedRun, hd, leInf_refl]
  · have hd' : (clippedRun cfg vf N).doneLooping = false := by simpa using hd
    have hstep : clippedRun cfg vf (N + 1) =
        stepIter cfg vf N (clippedRun cfg vf N) := by
      simp [clippedRun, hd']
    rw [hstep, stepIter_best]
    by_cases hcond : (validatesAt vf N &&
        ltInf (validationLossAt cfg N) (clippedRun cfg vf N).bestValidationLoss) = true
    · rw [if_pos hcond]
      have hl : ltInf (validationLossAt cfg N)
          (clippedRun cfg vf N).bestValidationLoss = true := by
        have h2 := hcond
        rw [Bool.and_eq_true] at h2
        exact h2.2
      cases hb : (clippedRun cfg vf N).bestValidationLoss with
      | none => simp [leInf]
      | some v =>
        rw [hb] at hl
        simp only [ltInf, decide_eq_true_eq] at hl
        simp [leInf, le_of_lt hl]
    · rw [if_neg hcond]
      exact leInf_refl _

/-- C5: a checkpoint is written if and only if a validation yields a loss
strictly below the best seen so far (the checkpoint log is exactly the
strict-improvement subsequence of the validation log); at those moments
`best_validation_loss`, `best_iter` and the test score (the mean test loss
over all test minibatches) are updated and at no others; every checkpoint
pickles all six layers into `result_<nameDataset>.dat` opened in `'wb'` mode;
consequently `best_validation_loss` is non-increasing over the run and ends
as the minimum of all validation losses seen. -/
theorem claim_C5 (cfg : LoopCfg) :
    (runLoop cfg).saves.map SaveEvent.iter =
      strictImprovementsFrom none (runLoop cfg).validations ∧
    (runLoop cfg).bestValidationLoss =
      minLoss ((runLoop cfg).validations.map Prod.snd) ∧
    (∀ N, leInf (clippedRun cfg (validationFrequency cfg) (N + 1)).bestValidationLoss
      (clippedRun cfg (validationFrequency cfg) N).bestValidationLoss = true) ∧
    (∀ e ∈ (runLoop cfg).saves, e.file = checkpointFileName cfg.nameDataset ∧
      e.layersDumped = [0, 1, 2, 3, 4, 5]) ∧
    checkpointFileName cfg.nameDataset = "result_" ++ cfg.nameDataset ++ ".dat" ∧
    (∀ iter st,
      ((validatesAt (validationFrequency cfg) iter &&
          ltInf (validationLossAt cfg iter) st.bestValidationLoss) = true →
        (stepIter cfg (validationFrequency cfg) iter st).saves = st.saves ++
          [⟨iter, checkpointFileName cfg.nameDataset, [0, 1, 2, 3, 4, 5]⟩] ∧
        (stepIter cfg (validationFrequency cfg) iter st).bestValidationLoss =
          some (validationLossAt cfg iter) ∧
        (stepIter cfg (validationFrequency cfg) iter st).bestIter = iter ∧
        (stepIter cfg (validationFrequency cfg) iter st).testScore =
          testScoreAt cfg iter) ∧
      ((validatesAt (validationFrequency cfg) iter &&
          ltInf (validationLossAt cfg iter) st.bestValidationLoss) = false →
        (stepIter cfg (validationFrequency cfg) iter st).saves = st.saves ∧
        (stepIter cfg (validationFrequency cfg) iter st).bestValidationLoss =
          st.bestValidationLoss ∧
        (stepIter cfg (validationFrequency cfg) iter st).bestIter = st.bestIter ∧
        (stepIter cfg (validationFrequency cfg) iter st).testScore = st.testScore)) ∧
    (∀ iter, testScoreAt cfg iter =
      meanQ ((List.range cfg.nTest).map (cfg.testLoss iter))) := by
  have heq := runLoop_eq_clipped cfg
  obtain ⟨h1, h2, h3, h4, h5, h6, h7, h8⟩ :=
    loopInv_clippedRun cfg (validationFrequency cfg) (cfg.nEpochs * cfg.nTrain)
  refine ⟨?_, ?_, ?_, ?_, rfl, ?_, fun _ => rfl⟩
  · rw [heq]; exact h6
  · rw [heq]
    rw [h7, runningBestFrom_none_eq_min]
  · intro N
    exact clippedRun_best_antitone cfg (validationFrequency cfg) N
  · rw [heq]; exact h8
  · intro iter st
    constructor
    · intro hcond
      rw [stepIter_saves, stepIter_best, stepIter_bestIter, stepIter_testScore]
      rw [if_pos hcond, if_pos hcond, if_pos hcond, if_pos hcond]
      exact ⟨rfl, rfl, rfl, rfl⟩
    · intro hcond
      have hcond' : ¬ (validatesAt (validationFrequency cfg) iter &&
          ltInf (validationLossAt cfg iter) st.bestValidationLoss) = true := by
        simp [hcond]
      rw [stepIter_saves, stepIter_best, stepIter_bestIter, stepIter_testScore]
      rw [if_neg hcond', if_neg hcond', if_neg hcond', if_neg hcond']
      exact ⟨rfl, rfl, rfl, rfl⟩

theorem claim_C5_witness :
    (⟨1, "result_d.dat", [0, 1, 2, 3, 4, 5]⟩ : SaveEvent).file =
      checkpointFileName witnessCfg.nameDataset ∧
    (⟨1, "result_d.dat", [0, 1, 2, 3, 4, 5]⟩ : SaveEvent).layersDumped =
      [0, 1, 2, 3, 4, 5] :=
  (claim_C5 witnessCfg).2.2.2.1 ⟨1, "result_d.dat", [0, 1, 2, 3, 4, 5]⟩ (by decide)

/-- C6: a validation runs exactly at the iterations where `(iter + 1)` is a
multiple of `validation_frequency = min(n_train_batches, patience / 2)`
(with the initial `patience = 10000`, so `patience / 2 = 5000` by integer
division); the reported loss is the arithmetic mean of the per-minibatch
validation losses over all `n_valid_batches` validation minibatches; and
the frequency is the fixed value computed once before the loop — the
validation schedule of the whole run uses this one constant even though
`patience` changes during the run. -/
theorem claim_C6 (cfg : LoopCfg) :
    (runLoop cfg).validations.map Prod.fst =
      (List.range (runLoop cfg).trained.length).filter
        (fun it => validatesAt (validationFrequency cfg) it) ∧
    (∀ p ∈ (runLoop cfg).validations,
      p.2 = meanQ ((List.range cfg.nValid).map (cfg.valLoss p.1))) ∧
    validationFrequency cfg = min cfg.nTrain (initialPatience / 2) ∧
    initialPatience / 2 = 5000 ∧
    (∀ iter, validatesAt (validationFrequency cfg) iter =
      ((iter + 1) % validationFrequency cfg == 0)) := by
  have heq := runLoop_eq_clipped cfg
  obtain ⟨h1, h2, h3, h4, h5, h6, h7, h8⟩ :=
    loopInv_clippedRun cfg (validationFrequency cfg) (cfg.nEpochs * cfg.nTrain)
  refine ⟨?_, ?_, rfl, rfl, fun _ => rfl⟩
  · rw [heq]; exact h4
  · rw [heq]
    intro p hp
    exact h5 p hp

theorem claim_C6_witness :
    ((1, validationLossAt witnessCfg 1) : ℕ × ℚ).2 =
      meanQ ((List.range witnessCfg.nValid).map (witnessCfg.valLoss 1)) :=
  (claim_C6 witnessCfg).2.1 (1, validationLossAt witnessCfg 1) (by
    rw [show (runLoop witnessCfg).validations =
      [(1, validationLossAt witnessCfg 1)] from rfl]
    exact List.mem_singleton.mpr rfl)

/-- C7: in `LeNetConvPoolLayer.__init__`, when no pretrained `Wi` is
supplied the weight tensor is a fresh draw, uniform on
`[-W_bound, W_bound]` with `W_bound = sqrt(6 / (fan_in + fan_out))`,
`fan_in = prod(filter_shape[1:])` and
`fan_out = filter_shape[0] * prod(filter_shape[2:]) / prod(poolsize)`
(Python 2 integer division), advancing the shared generator by one request;
when no pretrained `bi` is supplied the bias is the zero vector of length
`filter_shape[0]`; and a supplied `Wi` or `bi` is used verbatim as that
parameter's value (leaving the generator untouched in the `Wi` case). -/
theorem claim_C7 (rng : RandomState) (nf nin fh fw bs maps imh imw ph pw : ℕ)
    (Wi bi : Option Tensor) :
    (Wi = none →
      (leNetConvPoolInit rng (nf, nin, fh, fw) (bs, maps, imh, imw) (ph, pw)
          Wi bi).1.W =
        WInit.uniform ⟨rng.seed, rng.draws,
          6 / (((nin * fh * fw : ℕ) : ℚ) + ((nf * (fh * fw) / (ph * pw) : ℕ) : ℚ)),
          [nf, nin, fh, fw]⟩ ∧
      (leNetConvPoolInit rng (nf, nin, fh, fw) (bs, maps, imh, imw) (ph, pw)
          Wi bi).2 = ⟨rng.seed, rng.draws + 1⟩) ∧
    (∀ w, Wi = some w →
      (leNetConvPoolInit rng (nf, nin, fh, fw) (bs, maps, imh, imw) (ph, pw)
          Wi bi).1.W = WInit.given w ∧
      (leNetConvPoolInit rng (nf, nin, fh, fw) (bs, maps, imh, imw) (ph, pw)
          Wi bi).2 = rng) ∧
    (bi = none →
      (leNetConvPoolInit rng (nf, nin, fh, fw) (bs, maps, imh, imw) (ph, pw)
          Wi bi).1.b = List.replicate nf 0) ∧
    (∀ v, bi = some v →
      (leNetConvPoolInit rng (nf, nin, fh, fw) (bs, maps, imh, imw) (ph, pw)
          Wi bi).1.b = v) := by
  refine ⟨?_, ?_, ?_, ?_⟩
  · intro h
    subst h
    exact ⟨rfl, rfl⟩
  · intro w h
    subst h
    exact ⟨rfl, rfl⟩
  · intro h
    subst h
    rfl
  · intro v h
    subst h
    rfl

theorem claim_C7_witness :
    (leNetConvPoolInit ⟨23455, 0⟩ (32, 1, 5, 5) (1, 1, 128, 128) (2, 2)
        none none).1.W =
      WInit.uniform ⟨23455, 0,
        6 / (((1 * 5 * 5 : ℕ) : ℚ) + ((32 * (5 * 5) / (2 * 2) : ℕ) : ℚ)),
        [32, 1, 5, 5]⟩ ∧
    (leNetConvPoolInit ⟨23455, 0⟩ (32, 1, 5, 5) (1, 1, 128, 128) (2, 2)
        (some [7]) (some [9])).1.b = [9] :=
  ⟨((claim_C7 ⟨23455, 0⟩ 32 1 5 5 1 1 128 128 2 2 none none).1 rfl).1,
   (claim_C7 ⟨23455, 0⟩ 32 1 5 5 1 1 128 128 2 2 (some [7]) (some [9])).2.2.2
     [9] rfl⟩

/-- C8: `evaluate_lenet5` ingests the dataset from the file pair
`pathDataset + 'data_' + nameDataset + '.mat'` (features, keys `ftrain`,
`fvalidation`, `ftest`) and `pathDataset + 'pose_' + nameDataset + '.mat'`
(pose targets, keys `rtrain`, `rvalidation`, `rtest`), transposing each
matrix after loading, so the train/validation/test partitions are exactly
those six named matrices with features and targets paired by key suffix. -/
theorem claim_C8 (store : String → String → Mat)
    (pathDataset nameDataset : String) :
    loadPoseDatasets store pathDataset nameDataset =
      { train_set_x := transposeMat
          (store (pathDataset ++ "data_" ++ nameDataset ++ ".mat") "ftrain")
        valid_set_x := transposeMat
          (store (pathDataset ++ "data_" ++ nameDataset ++ ".mat") "fvalidation")
        test_set_x := transposeMat
          (store (pathDataset ++ "data_" ++ nameDataset ++ ".mat") "ftest")
        train_set_y := transposeMat
          (store (pathDataset ++ "pose_" ++ nameDataset ++ ".mat") "rtrain")
        valid_set_y := transposeMat
          (store (pathDataset ++ "pose_" ++ nameDataset ++ ".mat") "rvalidation")
        test_set_y := transposeMat
          (store (pathDataset ++ "pose_" ++ nameDataset ++ ".mat") "rtest") } ∧
    dataFileName pathDataset nameDataset =
      pathDataset ++ "data_" ++ nameDataset ++ ".mat" ∧
    poseFileName pathDataset nameDataset =
      pathDataset ++ "pose_" ++ nameDataset ++ ".mat" ∧
    (∀ (m : Mat) (j : ℕ), j < numCols m →
      (transposeMat m)[j]? = some (m.map fun row => row.getD j 0)) :=
  ⟨rfl, rfl, rfl, fun m j hj => transposeMat_row m j hj⟩

theorem claim_C8_witness :
    (transposeMat [[1, 2], [3, 4]])[0]? =
      some ([[1, 2], [3, 4]].map fun row => row.getD 0 0) :=
  (claim_C8 (fun _ _ => [[1, 2], [3, 4]]) "./" "activity13").2.2.2
    [[1, 2], [3, 4]] 0 (by decide)

/-- C9: the CLI accepts exactly the two options `-n`/`--nfile` (dataset
name) and `-p`/`--pfile` (dataset path): every option pair a successful
`getopt` parse can return carries one of those four names; on every command
line where `getopt` raises a parse error, the program keeps the defaults
`nameDataset = 'activity13'`, `pathDataset = './'` instead of terminating
with an error; and on a successful parse the configuration is a function of
the parsed option pairs alone — the positional arguments are discarded, so
they never change either value. -/
theorem claim_C9 (argv : List Arg) :
    (∀ e, getoptNP argv = .error e → mainConfig argv = mainDefaults) ∧
    (∀ pr, getoptNP argv = .ok pr →
      mainConfig argv = applyOpts pr.1 mainDefaults ∧
      ∀ o ∈ pr.1, o.1 = "-n".toList ∨ o.1 = "--nfile".toList ∨
        o.1 = "-p".toList ∨ o.1 = "--pfile".toList) ∧
    mainDefaults = ("activity13".toList, "./".toList) := by
  refine ⟨?_, ?_, rfl⟩
  · intro e he
    simp only [mainConfig, he]
  · intro pr hpr
    refine ⟨by simp only [mainConfig, hpr], ?_⟩
    intro o ho
    exact getoptGo_names argv.length argv (le_refl _) pr hpr o ho

theorem claim_C9_witness :
    mainConfig [['-', 'x']] = mainDefaults := by
  have herr : getoptNP [['-', 'x']] = .error () := by
    show getoptGo shortSpec longSpec [['-', 'x']] = .error ()
    rw [getoptGo.eq_def]
    simp only
    rw [if_neg (by decide), if_neg (by decide), if_neg (by decide)]
    rw [show do_shorts shortSpec (['-', 'x'].drop 1) [] = .error () from rfl]
  exact (claim_C9 [['-', 'x']]).1 () herr

/-- C10: parameter initialization is deterministic across runs:
`evaluate_lenet5` seeds its only random generator with the constant 23455,
so the model-construction phase is a pure function of the arguments — two
runs with equal arguments build equal models, and with no pretrained model
`TT` every one of the six layers draws its initial weights from the
generator seeded with 23455, at draw indices 0 through 5. -/
theorem claim_C10 (a1 a2 : EvalArgs) (h : a1 = a2) :
    buildModel a1 = buildModel a2 ∧
    evalRng = ⟨23455, 0⟩ ∧
    (a1.TT = none →
      (buildModel a1).layers.map Layer.wSeed = List.replicate 6 (some 23455) ∧
      (buildModel a1).layers.map Layer.wDrawIndex =
        [some 0, some 1, some 2, some 3, some 4, some 5]) := by
  subst h
  refine ⟨rfl, rfl, ?_⟩
  intro hTT
  obtain ⟨lr, ne, pd, nd, nk, bs, TT⟩ := a1
  simp only at hTT
  subst hTT
  exact ⟨rfl, rfl⟩

theorem claim_C10_witness :
    (buildModel ⟨1/20, 100, "./", "activity13", (10, 50, 500), 1, none⟩).layers.map
      Layer.wSeed = List.replicate 6 (some 23455) :=
  ((claim_C10 ⟨1/20, 100, "./", "activity13", (10, 50, 500), 1, none⟩
      ⟨1/20, 100, "./", "activity13", (10, 50, 500), 1, none⟩ rfl).2.2 rfl).1
